import Mathlib

/-!
Verification development for the PDF outline extractor (`round1a/main.py`,
class `PDFOutlineExtractor`).  The Python code is shallowly embedded:

* text is modelled as `String` / `List Char`; the ASCII character classes
  used by the Python regexes (`\d`, `\s`, `\w`, `[A-Z]`, ...) become
  decidable predicates on `Char`;
* the five `heading_patterns` regexes and the eight `skip_patterns`
  regexes are translated into executable matchers that reproduce the
  behaviour of `re.match` (anchored prefix matching with greedy
  quantifiers and backtracking) on whitespace-stripped input — the only
  input they ever receive, since `is_heading` strips its text first;
* floats become `ℚ`, the style-flag bitmask becomes `Nat`;
* the fallible document provider (PyMuPDF `fitz.open` / text extraction)
  becomes an `Except` value, and the `try/except` of `extract_outline`
  becomes a `match` on it.
-/

/-! ## Character classes (ASCII, as used by the Python regexes) -/

/-- Python whitespace class: the characters matched by `\s`, split on by
`str.split()` and removed by `str.strip()` (ASCII range). -/
def isPyWs (c : Char) : Bool :=
  c.toNat = 32 || c.toNat = 9 || c.toNat = 10 || c.toNat = 13 ||
    c.toNat = 11 || c.toNat = 12

/-- Regex `\d` (ASCII). -/
def isDigitC (c : Char) : Bool := 48 ≤ c.toNat && c.toNat ≤ 57

/-- Regex `[A-Z]`. -/
def isUpperC (c : Char) : Bool := 65 ≤ c.toNat && c.toNat ≤ 90

/-- Regex `[a-z]`. -/
def isLowerC (c : Char) : Bool := 97 ≤ c.toNat && c.toNat ≤ 122

/-- A cased letter (ASCII). -/
def isAlphaC (c : Char) : Bool := isUpperC c || isLowerC c

/-- Regex `\w` (ASCII): letters, digits and underscore. -/
def isWordC (c : Char) : Bool := isAlphaC c || isDigitC c || c.toNat = 95

/-- `str.lower()` on one character (ASCII). -/
def lowerC (c : Char) : Char :=
  if isUpperC c then Char.ofNat (c.toNat + 32) else c

/-- `str.lower()`. -/
def pyLower (l : List Char) : List Char := l.map lowerC

/-- Drop trailing Python whitespace (helper for `str.strip()`). -/
def dropTrailWs : List Char → List Char
  | [] => []
  | c :: cs =>
    match dropTrailWs cs with
    | [] => if isPyWs c then [] else [c]
    | l => c :: l

/-- `str.strip()`: drop leading and trailing whitespace. -/
def pyStrip (l : List Char) : List Char :=
  dropTrailWs (l.dropWhile isPyWs)

/-- `str.strip()` on `String`. -/
def pyStripS (s : String) : String := ⟨pyStrip s.toList⟩

/-- `text.split('\n')`: split at every newline, keeping empty pieces. -/
def splitNl : List Char → List (List Char)
  | [] => [[]]
  | c :: cs =>
    if c.toNat = 10 then [] :: splitNl cs
    else
      match splitNl cs with
      | [] => [[c]]
      | l :: ls => (c :: l) :: ls

/-! ## The eight `skip_patterns` of `is_heading`
They are applied with `re.match` to the lower-cased stripped text. -/

/-- `^\d+$`. -/
def skipAllDigits (l : List Char) : Bool := !l.isEmpty && l.all isDigitC

/-- `^page \d+`, `^figure \d+`, `^table \d+`: the literal word `w`
followed by at least one digit (prefix match, rest unconstrained). -/
def skipWordNum (w : List Char) (l : List Char) : Bool :=
  w.isPrefixOf l && (l.drop w.length).head?.any isDigitC

/-- `^\w+@\w+\.\w+` (prefix match).  `\w+` is greedy and word characters
never equal `@` or `.`, so the maximal runs are forced. -/
def skipEmail (l : List Char) : Bool :=
  let r1 := l.takeWhile isWordC
  !r1.isEmpty &&
    (match l.drop r1.length with
     | c :: rest =>
       (c.toNat == 64) &&
         (let r2 := rest.takeWhile isWordC
          !r2.isEmpty &&
            (match rest.drop r2.length with
             | d :: rest2 => (d.toNat == 46) && rest2.head?.any isWordC
             | [] => false))
     | [] => false)

/-- `^http` (prefix match). -/
def skipHttp (l : List Char) : Bool := "http".toList.isPrefixOf l

/-- `^\(.*\)$` and `^\[.*\]$`: whole text wrapped in `op`/`cl`, with no
newline (regex `.` never matches `\n`; on stripped input `$` is simply
end-of-string since a trailing `\n` would have been stripped). -/
def skipWrapped (op cl : Char) (l : List Char) : Bool :=
  decide (2 ≤ l.length) && (l.head? == some op) && (l.getLast? == some cl) &&
    !l.contains '\n'

/-- The `skip_patterns` loop: `True` iff any of the eight patterns
matches the (lower-cased, stripped) text. -/
def matchesSkip (l : List Char) : Bool :=
  skipAllDigits l || skipWordNum "page ".toList l ||
    skipWordNum "figure ".toList l || skipWordNum "table ".toList l ||
    skipEmail l || skipHttp l ||
    skipWrapped '(' ')' l || skipWrapped '[' ']' l

/-! ## The five `heading_patterns` regexes -/

/-- Tail of `^(GROUP)\s*(.+)$`: after the captured group, `\s*` then a
non-empty newline-free remainder reaching the end.  On stripped input
(whose last character is never whitespace) this is equivalent to the
regex engine's greedy `\s*` followed by `(.+)$`. -/
def restOk (rem : List Char) : Bool :=
  let r := rem.dropWhile isPyWs
  !r.isEmpty && !r.contains '\n'

/-- Parse the greedy run of `\d+\.` groups of
`^(\d+\.(?:\d+\.)*)\s*(.+)$`.  Returns the number of complete
digits-then-dot groups consumed and the remainder.  `fuel` bounds the
recursion; it is always called with the length of the list. -/
def parseGroupsF : Nat → List Char → Nat × List Char
  | 0, l => (0, l)
  | fuel + 1, l =>
    let ds := l.takeWhile isDigitC
    if ds.isEmpty then (0, l)
    else
      match l.drop ds.length with
      | c :: rest =>
        if c.toNat = 46 then
          let p := parseGroupsF fuel rest
          (p.1 + 1, p.2)
      else (0, l)
      | [] => (0, l)

/-- Pattern `^(\d+\.(?:\d+\.)*)\s*(.+)$`.  Returns the number of dots in
the captured group (= number of complete `\d+\.` groups) when the regex
matches.  When the greedy run of groups leaves an empty remainder the
engine backtracks one group (the dropped group itself, `\d+\.`, then
serves as the non-empty `(.+)` remainder); backtracking further can
never help, and a remainder that fails because of an inner newline also
fails for every smaller number of groups. -/
def matchNumbered (t : List Char) : Option Nat :=
  let p := parseGroupsF t.length t
  if p.1 = 0 then none
  else if restOk p.2 then some p.1
  else if p.2.isEmpty ∧ 2 ≤ p.1 then some (p.1 - 1)
  else none

/-- Regex class `[IVX]`. -/
def isRomanC (c : Char) : Bool := c.toNat = 73 || c.toNat = 86 || c.toNat = 88

/-- Pattern `^([IVX]+\.)\s*(.+)$` (the captured group always contains
exactly one dot). -/
def matchRoman (t : List Char) : Bool :=
  let run := t.takeWhile isRomanC
  !run.isEmpty &&
    (match t.drop run.length with
     | c :: rest => (c.toNat == 46) && restOk rest
     | [] => false)

/-- Pattern `^([A-Z]\.)\s*(.+)$`. -/
def matchLetter (t : List Char) : Bool :=
  match t with
  | c :: d :: rest => isUpperC c && (d.toNat == 46) && restOk rest
  | _ => false

/-- Pattern `^([A-Z][A-Z\s]+)$`. -/
def matchCaps (t : List Char) : Bool :=
  match t with
  | c :: rest =>
    isUpperC c && !rest.isEmpty && rest.all (fun d => isUpperC d || isPyWs d)
  | [] => false

/-- Parse one `[A-Z][a-z]+` word; returns the rest on success.  `[a-z]+`
is greedy and a shorter run would leave a lower-case letter where `\s`,
`[A-Z]` or the end is required, so the maximal run is forced. -/
def capWord (l : List Char) : Option (List Char) :=
  match l with
  | c :: rest =>
    if isUpperC c then
      let lows := rest.takeWhile isLowerC
      if lows.isEmpty then none else some (rest.drop lows.length)
    else none
  | [] => none

/-- Parse `(?:\s+[A-Z][a-z]+)*$` after a word.  `fuel` bounds the
recursion (each round consumes at least one character). -/
def moreWords : Nat → List Char → Bool
  | _, [] => true
  | 0, _ => false
  | fuel + 1, l =>
    let ws := l.takeWhile isPyWs
    if ws.isEmpty then false
    else
      match capWord (l.drop ws.length) with
      | some rest => moreWords fuel rest
      | none => false

/-- Pattern `^([A-Z][a-z]+(?:\s+[A-Z][a-z]+)*)$`. -/
def matchTitleCase (t : List Char) : Bool :=
  match capWord t with
  | some rest => moreWords t.length rest
  | none => false

/-- The `heading_patterns` loop of `is_heading`: try the five patterns
in order, first match wins, and derive the level from the number of dots
in the captured group (`'.' in group(1)` then `group(1).count('.')`):
1 dot → H1, 2 dots → H2, otherwise H3; a dot-free group → H1.  The
numbered pattern's group carries one dot per parsed `\d+\.` group, the
roman and single-letter groups carry exactly one dot, and the all-caps
and title-case groups never contain a dot. -/
def structuralLevel (t : List Char) : Option String :=
  match matchNumbered t with
  | some k => some (if k = 1 then "H1" else if k = 2 then "H2" else "H3")
  | none =>
    if matchRoman t then some "H1"
    else if matchLetter t then some "H1"
    else if matchCaps t then some "H1"
    else if matchTitleCase t then some "H1"
    else none

/-! ## Python string predicates used by the style fallback -/

/-- `str.isupper()` (ASCII): at least one cased character and no
lower-case character. -/
def pyIsUpper (l : List Char) : Bool :=
  l.any isAlphaC && l.all fun c => !isLowerC c

/-- State machine of CPython's `str.istitle()` (ASCII): upper-case
letters must not follow a cased character, lower-case letters must
follow one; the result requires at least one cased character. -/
def pyIsTitleAux : Bool → Bool → List Char → Bool
  | _, cased, [] => cased
  | prev, cased, c :: cs =>
    if isUpperC c then (if prev then false else pyIsTitleAux true true cs)
    else if isLowerC c then (if prev then pyIsTitleAux true true cs else false)
    else pyIsTitleAux false cased cs

/-- `str.istitle()` (ASCII). -/
def pyIsTitle (l : List Char) : Bool := pyIsTitleAux false false l

/-- Helper for `len(text.split())`: count maximal non-whitespace runs;
the flag records whether we are inside a run. -/
def wordCountAux : Bool → List Char → Nat
  | _, [] => 0
  | inw, c :: cs =>
    if isPyWs c then wordCountAux false cs
    else (if inw then 0 else 1) + wordCountAux true cs

/-- `len(text.split())`. -/
def wordCount (l : List Char) : Nat := wordCountAux false l

/-! ## The classifier `is_heading` -/

/-- The font-style fallback of `is_heading` (the three `font_size_ratio`
/ bold branches).  `2 ** 4 = 16` is the bold bit. -/
def fontLevel (font_size : ℚ) (font_flags : Nat) (avg_font_size : ℚ)
    (t : List Char) : Option String :=
  let is_bold : Bool := font_flags &&& 16 != 0
  let r : ℚ := if 0 < avg_font_size then font_size / avg_font_size else 1
  if 3 / 2 < r ∨ (is_bold = true ∧ 6 / 5 < r) then some "H1"
  else if 6 / 5 < r ∨ is_bold = true then some "H2"
  else if 1 < r ∧ (is_bold = true ∨ pyIsUpper t = true) then some "H3"
  else none

/-- The level computation of `is_heading` after the two gates: the
structural patterns first, then the font fallback, then the residual
all-caps (`H2`) and title-case (`H3`) checks. -/
def levelOf (t : List Char) (font_size : ℚ) (font_flags : Nat)
    (avg : ℚ) : Option String :=
  match structuralLevel t with
  | some lvl => some lvl
  | none =>
    match fontLevel font_size font_flags avg t with
    | some lvl => some lvl
    | none =>
      if pyIsUpper t = true ∧ 5 < t.length then some "H2"
      else if pyIsTitle t = true ∧ wordCount t ≤ 8 then some "H3"
      else none

/-- `PDFOutlineExtractor.is_heading`: strip, length gate, noise gate,
then the level logic; returns `(level is not None, level)`. -/
def is_heading (text : String) (font_size : ℚ) (font_flags : Nat)
    (avg_font_size : ℚ) : Bool × Option String :=
  let t := pyStrip text.toList
  if t.length < 3 ∨ 200 < t.length then (false, none)
  else if matchesSkip (pyLower t) = true then (false, none)
  else
    let lv := levelOf t font_size font_flags avg_font_size
    (lv.isSome, lv)

/-! ## Data model -/

/-- One styled text fragment as collected by `extract_outline` from the
document provider (`text`, `font_size`, `font_flags`, `page`). -/
structure Frag where
  text : String
  font_size : ℚ
  font_flags : Nat
  page : Nat
deriving DecidableEq

/-- One entry of the produced outline:
`{"level": ..., "text": ..., "page": ...}`. -/
structure Entry where
  level : String
  text : String
  page : Nat
deriving DecidableEq

/-- The result record of `extract_outline`:
`{"title": ..., "outline": ...}`. -/
structure OutlineResult where
  title : String
  outline : List Entry
deriving DecidableEq

/-- What the (external) document provider yields on success: the
metadata title, the raw text of each page (for `extract_title`), and the
styled text fragments of the whole document. -/
structure PDFDoc where
  metaTitle : Option String
  pageTexts : List String
  frags : List Frag

/-! ## `extract_title` -/

/-- The non-empty stripped lines of one page's text:
`[line.strip() for line in text.split('\n') if line.strip()]`. -/
def pageLines (pg : String) : List (List Char) :=
  ((splitNl pg.toList).map pyStrip).filter fun l => !l.isEmpty

/-- The scan loop of `extract_title` over (at most five) candidate
lines: return the first line of length strictly between 10 and 100 that
does not start with a digit (`re.match(r'^\d', line)`) and whose
lower-case form does not start with `"abstract"`. -/
def titleLoop : List (List Char) → String
  | [] => "Untitled Document"
  | l :: rest =>
    if 10 < l.length ∧ l.length < 100 then
      if l.head?.any isDigitC = false ∧
          "abstract".toList.isPrefixOf (pyLower l) = false then ⟨l⟩
      else titleLoop rest
    else titleLoop rest

/-- The first-page part of `extract_title` (`if len(doc) > 0` and the
scan of `lines[:5]`). -/
def titleFromFirstPage : List String → String
  | [] => "Untitled Document"
  | pg :: _ => titleLoop ((pageLines pg).take 5)

/-- `PDFOutlineExtractor.extract_title`: metadata title first
(`metadata.get('title') and metadata['title'].strip()` — present,
truthy, and non-blank after stripping), then the first-page scan. -/
def extract_title (metaTitle : Option String) (pageTexts : List String) :
    String :=
  match metaTitle with
  | some t =>
    if t ≠ "" ∧ pyStripS t ≠ "" then pyStripS t
    else titleFromFirstPage pageTexts
  | none => titleFromFirstPage pageTexts

/-! ## `extract_outline` -/

/-- Lines 139–140: `sum(font_sizes) / len(font_sizes) if font_sizes
else 12`. -/
def avg_font_size (frags : List Frag) : ℚ :=
  let sizes := frags.map fun f => f.font_size
  if sizes.isEmpty then 12 else sizes.sum / sizes.length

/-- The first pass of `extract_outline`: run `is_heading` on every
fragment in document order and append an entry when it is accepted and
its text has not been seen before (`seen_headings`).  The truthiness
test `if is_head and level and ...` is equivalent to `level` being a
`some` (the level strings are non-empty). -/
def buildOutline : List Frag → ℚ → List String → List Entry
  | [], _, _ => []
  | f :: rest, avg, seen =>
    match (is_heading f.text f.font_size f.font_flags avg).2 with
    | some lvl =>
      if f.text ∈ seen then buildOutline rest avg seen
      else ⟨lvl, f.text, f.page⟩ :: buildOutline rest avg (f.text :: seen)
    | none => buildOutline rest avg seen

/-- Lexicographic comparison of character lists by code point — the
order Python uses on the `text` component of the sort key. -/
def charListLe : List Char → List Char → Bool
  | [], _ => true
  | _ :: _, [] => false
  | a :: l1, b :: l2 =>
    if a.toNat < b.toNat then true
    else if b.toNat < a.toNat then false
    else charListLe l1 l2

/-- The sort key order of `outline.sort(key=lambda x: (x['page'],
x['text']))`: ascending page, then ascending lexical text. -/
def entryLe (a b : Entry) : Bool :=
  decide (a.page < b.page) ||
    (decide (a.page = b.page) && charListLe a.text.toList b.text.toList)

/-- Stable insertion (an element goes before the first strictly greater
element, after equals). -/
def insertSorted (x : Entry) : List Entry → List Entry
  | [] => [x]
  | y :: ys => if entryLe x y then x :: y :: ys else y :: insertSorted x ys

/-- `outline.sort(key=lambda x: (x['page'], x['text']))`.  Python's
`list.sort` is a stable sort; a stable sort's output is uniquely
determined by the key order, so the stable insertion sort below is
extensionally the same function. -/
def sortOutline : List Entry → List Entry
  | [] => []
  | x :: xs => insertSorted x (sortOutline xs)

/-- The second pass of `extract_outline`: `Remove duplicates while
preserving order`, keyed on `(item['level'], item['text'])`. -/
def dedupLoop : List Entry → List (String × String) → List Entry
  | [], _ => []
  | e :: rest, seen =>
    if (e.level, e.text) ∈ seen then dedupLoop rest seen
    else e :: dedupLoop rest ((e.level, e.text) :: seen)

/-- Lines 143–171 of `extract_outline`: first pass, sort, second pass —
the outline assembler for a given fragment list and baseline. -/
def outlineCore (frags : List Frag) (avg : ℚ) : List Entry :=
  dedupLoop (sortOutline (buildOutline frags avg [])) []

/-- `PDFOutlineExtractor.extract_outline`: on provider failure (the
`except` branch) the degraded result; otherwise title resolution and
outline assembly with the document-wide average font size. -/
def extract_outline (input : Except String PDFDoc) : OutlineResult :=
  match input with
  | .error _ => ⟨"Error Processing Document", []⟩
  | .ok d =>
    ⟨extract_title d.metaTitle d.pageTexts,
     outlineCore d.frags (avg_font_size d.frags)⟩

/-! ## Spec-side definitions (for the refinement-style claims) -/

/-- Modelled from the spec (§4.4 variant for C10): the assembler with
the second deduplication pass omitted, returning the page-then-text
sorted list directly. -/
def outlineNoSecondPass (frags : List Frag) (avg : ℚ) : List Entry :=
  sortOutline (buildOutline frags avg [])

/-- The entry produced by the first fragment (in processing order)
whose text equals `t` and which the classifier accepts — the "first
occurrence" of C4. -/
def firstHit (frags : List Frag) (avg : ℚ) (t : String) : Option Entry :=
  match frags with
  | [] => none
  | f :: rest =>
    match (is_heading f.text f.font_size f.font_flags avg).2 with
    | some lvl =>
      if f.text = t then some ⟨lvl, f.text, f.page⟩
      else firstHit rest avg t
    | none => firstHit rest avg t

/-- Spec formulation of the title scan's acceptance predicate: length
strictly between 10 and 100, not starting with a digit, case-insensitive
prefix not `"abstract"`. -/
def goodLine (l : List Char) : Bool :=
  decide (10 < l.length) && decide (l.length < 100) &&
    !l.head?.any isDigitC && !("abstract".toList.isPrefixOf (pyLower l))

/-- Modelled from the spec (§4.2, for C3): the title resolver stated
with `List.find?` — metadata title trimmed when non-blank, else the
first of the first five candidate lines accepted by `goodLine`, else
the sentinel. -/
def titleSpec (metaTitle : Option String) (pageTexts : List String) :
    String :=
  let lines := match pageTexts with | [] => [] | pg :: _ => pageLines pg
  let fb :=
    ((((lines.take 5).find? goodLine).map fun l => (⟨l⟩ : String)).getD
      "Untitled Document")
  match metaTitle with
  | some t => if pyStripS t = "" then fb else pyStripS t
  | none => fb

/-! ## Helper lemmas -/

theorem charListLe_cons (a b : Char) (l1 l2 : List Char) :
    charListLe (a :: l1) (b :: l2) = true ↔
      a.toNat < b.toNat ∨ (a.toNat = b.toNat ∧ charListLe l1 l2 = true) := by
  by_cases h : a.toNat < b.toNat
  · simp [charListLe, h]
  · by_cases h' : b.toNat < a.toNat
    · simp [charListLe, h, h']
      omega
    · have he : a.toNat = b.toNat := by omega
      simp [charListLe, h, h', he]

theorem charListLe_total : ∀ l1 l2 : List Char,
    charListLe l1 l2 = true ∨ charListLe l2 l1 = true := by
  intro l1
  induction l1 with
  | nil => intro l2; left; rfl
  | cons a l1 ih =>
    intro l2
    cases l2 with
    | nil => right; rfl
    | cons b l2 =>
      rcases Nat.lt_trichotomy a.toNat b.toNat with h | h | h
      · left; exact (charListLe_cons ..).mpr (Or.inl h)
      · rcases ih l2 with h2 | h2
        · left; exact (charListLe_cons ..).mpr (Or.inr ⟨h, h2⟩)
        · right; exact (charListLe_cons ..).mpr (Or.inr ⟨h.symm, h2⟩)
      · right; exact (charListLe_cons ..).mpr (Or.inl h)

theorem charListLe_trans : ∀ l1 l2 l3 : List Char,
    charListLe l1 l2 = true → charListLe l2 l3 = true →
    charListLe l1 l3 = true := by
  intro l1
  induction l1 with
  | nil => intro l2 l3 _ _; rfl
  | cons a l1 ih =>
    intro l2 l3 h12 h23
    cases l2 with
    | nil => simp [charListLe] at h12
    | cons b l2 =>
      cases l3 with
      | nil => simp [charListLe] at h23
      | cons c l3 =>
        rcases (charListLe_cons ..).mp h12 with h1 | ⟨h1, h1'⟩ <;>
          rcases (charListLe_cons ..).mp h23 with h2 | ⟨h2, h2'⟩
        · exact (charListLe_cons ..).mpr (Or.inl (by omega))
        · exact (charListLe_cons ..).mpr (Or.inl (by omega))
        · exact (charListLe_cons ..).mpr (Or.inl (by omega))
        · exact (charListLe_cons ..).mpr (Or.inr ⟨by omega, ih l2 l3 h1' h2'⟩)

theorem entryLe_total (a b : Entry) : entryLe a b = true ∨ entryLe b a = true := by
  unfold entryLe
  rcases Nat.lt_trichotomy a.page b.page with h | h | h
  · left; simp [h]
  · rcases charListLe_total a.text.toList b.text.toList with h2 | h2
    · left; simp [h]; exact h2
    · right; simp [h.symm]; exact h2
  · right; simp [h]

theorem entryLe_trans {a b c : Entry} (hab : entryLe a b = true)
    (hbc : entryLe b c = true) : entryLe a c = true := by
  unfold entryLe at *
  simp only [Bool.or_eq_true, Bool.and_eq_true, decide_eq_true_eq] at *
  rcases hab with h1 | ⟨h1, h1'⟩ <;> rcases hbc with h2 | ⟨h2, h2'⟩
  · left; omega
  · left; omega
  · left; omega
  · right; exact ⟨by omega, charListLe_trans _ _ _ h1' h2'⟩

theorem mem_insertSorted {x y : Entry} : ∀ {l : List Entry},
    y ∈ insertSorted x l ↔ y = x ∨ y ∈ l := by
  intro l
  induction l with
  | nil => simp [insertSorted]
  | cons z zs ih =>
    by_cases h : entryLe x z
    · simp only [insertSorted, if_pos h, List.mem_cons]
    · simp only [insertSorted, if_neg h, List.mem_cons, ih]
      tauto

theorem insertSorted_perm (x : Entry) : ∀ l : List Entry,
    List.Perm (insertSorted x l) (x :: l) := by
  intro l
  induction l with
  | nil => exact List.Perm.refl _
  | cons y ys ih =>
    by_cases h : entryLe x y
    · simp only [insertSorted, if_pos h]
      exact List.Perm.refl _
    · simp only [insertSorted, if_neg h]
      exact (ih.cons y).trans (List.Perm.swap x y ys)

theorem sortOutline_perm : ∀ l : List Entry, List.Perm (sortOutline l) l := by
  intro l
  induction l with
  | nil => exact List.Perm.refl _
  | cons x xs ih =>
    exact (insertSorted_perm x (sortOutline xs)).trans (ih.cons x)

theorem insertSorted_sorted (x : Entry) : ∀ {l : List Entry},
    l.Pairwise (fun a b => entryLe a b = true) →
    (insertSorted x l).Pairwise (fun a b => entryLe a b = true) := by
  intro l
  induction l with
  | nil => intro _; simp [insertSorted]
  | cons y ys ih =>
    intro h
    rcases List.pairwise_cons.mp h with ⟨hy, hys⟩
    by_cases hxy : entryLe x y
    · simp only [insertSorted, if_pos hxy]
      refine List.pairwise_cons.mpr ⟨?_, h⟩
      intro z hz
      rcases List.mem_cons.mp hz with rfl | hz
      · exact hxy
      · exact entryLe_trans hxy (hy z hz)
    · have hyx : entryLe y x = true :=
        (entryLe_total x y).resolve_left (by simpa using hxy)
      simp only [insertSorted, if_neg hxy]
      refine List.pairwise_cons.mpr ⟨?_, ih hys⟩
      intro z hz
      rcases mem_insertSorted.mp hz with rfl | hz
      · exact hyx
      · exact hy z hz

theorem sortOutline_sorted : ∀ l : List Entry,
    (sortOutline l).Pairwise (fun a b => entryLe a b = true) := by
  intro l
  induction l with
  | nil => simp [sortOutline]
  | cons x xs ih => exact insertSorted_sorted x ih

theorem dedupLoop_sublist : ∀ (l : List Entry) (seen : List (String × String)),
    List.Sublist (dedupLoop l seen) l := by
  intro l
  induction l with
  | nil => intro seen; simp [dedupLoop]
  | cons e rest ih =>
    intro seen
    by_cases h : (e.level, e.text) ∈ seen
    · simp only [dedupLoop, if_pos h]
      exact (ih seen).cons e
    · simp only [dedupLoop, if_neg h]
      exact (ih _).cons₂ e

theorem dedupLoop_eq_self : ∀ (l : List Entry) (seen : List (String × String)),
    l.Pairwise (fun a b => a.text ≠ b.text) →
    (∀ e ∈ l, ∀ p ∈ seen, p.2 ≠ e.text) →
    dedupLoop l seen = l := by
  intro l
  induction l with
  | nil => intro seen _ _; rfl
  | cons e rest ih =>
    intro seen hpw hseen
    have hni : (e.level, e.text) ∉ seen := fun hmem =>
      (hseen e (List.mem_cons_self e rest) _ hmem) rfl
    rcases List.pairwise_cons.mp hpw with ⟨he, hrest⟩
    simp only [dedupLoop, if_neg hni]
    congr 1
    refine ih _ hrest ?_
    intro x hx p hp
    rcases List.mem_cons.mp hp with rfl | hp'
    · exact he x hx
    · exact hseen x (List.mem_cons_of_mem e hx) p hp'

theorem buildOutline_text_not_mem (frags : List Frag) (avg : ℚ) :
    ∀ (seen : List String) (e : Entry),
      e ∈ buildOutline frags avg seen → e.text ∉ seen := by
  induction frags with
  | nil => intro seen e he; simp [buildOutline] at he
  | cons f rest ih =>
    intro seen e he
    cases hcl : (is_heading f.text f.font_size f.font_flags avg).2 with
    | none =>
      simp only [buildOutline, hcl] at he
      exact ih seen e he
    | some lvl =>
      simp only [buildOutline, hcl] at he
      by_cases hmem : f.text ∈ seen
      · rw [if_pos hmem] at he
        exact ih seen e he
      · rw [if_neg hmem] at he
        rcases List.mem_cons.mp he with rfl | he
        · exact hmem
        · have := ih (f.text :: seen) e he
          exact fun h => this (List.mem_cons_of_mem _ h)

theorem buildOutline_pairwise (frags : List Frag) (avg : ℚ) :
    ∀ seen : List String,
      (buildOutline frags avg seen).Pairwise fun a b => a.text ≠ b.text := by
  induction frags with
  | nil => intro seen; simp [buildOutline]
  | cons f rest ih =>
    intro seen
    cases hcl : (is_heading f.text f.font_size f.font_flags avg).2 with
    | none => simp only [buildOutline, hcl]; exact ih seen
    | some lvl =>
      simp only [buildOutline, hcl]
      by_cases hmem : f.text ∈ seen
      · rw [if_pos hmem]; exact ih seen
      · rw [if_neg hmem]
        refine List.pairwise_cons.mpr ⟨?_, ih _⟩
        intro e he
        have := buildOutline_text_not_mem rest avg (f.text :: seen) e he
        exact fun h => this (h ▸ List.mem_cons_self _ _)

theorem buildOutline_firstHit (frags : List Frag) (avg : ℚ) :
    ∀ (seen : List String) (e : Entry),
      e ∈ buildOutline frags avg seen → firstHit frags avg e.text = some e := by
  induction frags with
  | nil => intro seen e he; simp [buildOutline] at he
  | cons f rest ih =>
    intro seen e he
    cases hcl : (is_heading f.text f.font_size f.font_flags avg).2 with
    | none =>
      simp only [buildOutline, hcl] at he
      simp only [firstHit, hcl]
      exact ih seen e he
    | some lvl =>
      simp only [buildOutline, hcl] at he
      simp only [firstHit, hcl]
      by_cases hmem : f.text ∈ seen
      · rw [if_pos hmem] at he
        have hne : f.text ≠ e.text := fun h =>
          buildOutline_text_not_mem rest avg seen e he (h ▸ hmem)
        rw [if_neg hne]
        exact ih seen e he
      · rw [if_neg hmem] at he
        rcases List.mem_cons.mp he with rfl | he
        · rw [if_pos rfl]
        · have hne : f.text ≠ e.text := fun h => by
            have := buildOutline_text_not_mem rest avg (f.text :: seen) e he
            exact this (h ▸ List.mem_cons_self _ _)
          rw [if_neg hne]
          exact ih _ e he

theorem buildOutline_exists (frags : List Frag) (avg : ℚ) :
    ∀ (seen : List String) (f : Frag), f ∈ frags →
      (is_heading f.text f.font_size f.font_flags avg).2.isSome = true →
      f.text ∉ seen →
      ∃ e ∈ buildOutline frags avg seen, e.text = f.text := by
  induction frags with
  | nil => intro seen f hf; simp at hf
  | cons g rest ih =>
    intro seen f hf hcl hns
    cases hgl : (is_heading g.text g.font_size g.font_flags avg).2 with
    | none =>
      simp only [buildOutline, hgl]
      rcases List.mem_cons.mp hf with rfl | hf'
      · rw [hgl] at hcl; simp at hcl
      · exact ih seen f hf' hcl hns
    | some lvl =>
      simp only [buildOutline, hgl]
      by_cases hmem : g.text ∈ seen
      · rw [if_pos hmem]
        rcases List.mem_cons.mp hf with rfl | hf'
        · exact absurd hmem hns
        · exact ih seen f hf' hcl hns
      · rw [if_neg hmem]
        by_cases hft : f.text = g.text
        · exact ⟨⟨lvl, g.text, g.page⟩, List.mem_cons_self _ _, hft.symm⟩
        · rcases List.mem_cons.mp hf with rfl | hf'
          · exact absurd rfl hft
          · obtain ⟨e, he, het⟩ :=
              ih (g.text :: seen) f hf' hcl (by
                intro h
                rcases List.mem_cons.mp h with h' | h'
                · exact hft h'
                · exact hns h')
            exact ⟨e, List.mem_cons_of_mem _ he, het⟩

theorem outlineCore_no_dedup (frags : List Frag) (avg : ℚ) :
    outlineCore frags avg = sortOutline (buildOutline frags avg []) := by
  unfold outlineCore
  apply dedupLoop_eq_self
  · have hp := sortOutline_perm (buildOutline frags avg [])
    exact (hp.pairwise_iff fun {a b} h h' => h h'.symm).mpr
      (buildOutline_pairwise frags avg [])
  · intro e _ p hp
    simp at hp

theorem dropTrailWs_head : ∀ {m : List Char} {c : Char} {rest : List Char},
    dropTrailWs m = c :: rest → ∃ r0, m = c :: r0 := by
  intro m
  induction m with
  | nil => intro c rest h; simp [dropTrailWs] at h
  | cons a as ih =>
    intro c rest h
    rw [dropTrailWs] at h
    cases h' : dropTrailWs as with
    | nil =>
      rw [h'] at h
      by_cases hw : isPyWs a
      · simp [hw] at h
      · simp [hw] at h
        exact ⟨as, by rw [h.1]⟩
    | cons x xs =>
      rw [h'] at h
      exact ⟨as, by rw [(List.cons.injEq ..).mp h |>.1]⟩

theorem dropWhile_head_false : ∀ {l : List Char} {c : Char} {rest : List Char},
    l.dropWhile isPyWs = c :: rest → isPyWs c = false := by
  intro l
  induction l with
  | nil => intro c rest h; simp at h
  | cons a as ih =>
    intro c rest h
    by_cases hw : isPyWs a
    · rw [List.dropWhile_cons_of_pos hw] at h
      exact ih h
    · rw [List.dropWhile_cons_of_neg hw] at h
      have := (List.cons.injEq ..).mp h |>.1
      rw [← this]
      simpa using hw

theorem pyStrip_head_not_ws {l : List Char} {c : Char} {rest : List Char}
    (h : pyStrip l = c :: rest) : isPyWs c = false := by
  obtain ⟨r0, hr0⟩ := dropTrailWs_head h
  exact dropWhile_head_false hr0

theorem matchNumbered_none_of_head {c : Char} {rest : List Char}
    (h : isDigitC c = false) : matchNumbered (c :: rest) = none := by
  have hparse : parseGroupsF (rest.length + 1) (c :: rest) = (0, c :: rest) := by
    rw [parseGroupsF]
    simp [List.takeWhile_cons, h]
  simp [matchNumbered, hparse]

theorem matchRoman_false_of_no_dot {t : List Char}
    (h : ∀ d ∈ t, d.toNat ≠ 46) : matchRoman t = false := by
  rw [matchRoman]
  cases hdrop : t.drop (t.takeWhile isRomanC).length with
  | nil => simp
  | cons d rest =>
    have hdm : d ∈ t := by
      have : d ∈ t.drop (t.takeWhile isRomanC).length := by
        rw [hdrop]; exact List.mem_cons_self _ _
      exact List.mem_of_mem_drop this
    simp [h d hdm]

theorem matchLetter_false_of_no_dot : ∀ {t : List Char},
    (∀ d ∈ t, d.toNat ≠ 46) → matchLetter t = false := by
  intro t h
  match t with
  | [] => rfl
  | [c] => rfl
  | c :: d :: rest =>
    have := h d (List.mem_cons_of_mem _ (List.mem_cons_self _ _))
    simp [matchLetter, this]

theorem matchCaps_true {c : Char} {rest : List Char}
    (hc : isUpperC c = true) (hne : rest ≠ [])
    (hall : ∀ d ∈ rest, isUpperC d = true ∨ isPyWs d = true) :
    matchCaps (c :: rest) = true := by
  cases rest with
  | nil => exact absurd rfl hne
  | cons d ds =>
    simp only [matchCaps, hc, Bool.true_and, List.isEmpty_cons, Bool.not_false,
      List.all_eq_true, Bool.or_eq_true]
    intro x hx
    exact hall x hx

/-! ## Claim theorems -/

/-- Claim C1, counterexample: the numbered-heading law fails as stated —
the classifier maps the text `"1.2 Background"` to level H1 (the
captured regex group is `"1."`, one dot), not H2, and `"1.2.3 Detail"`
to H2 (captured group `"1.2."`, two dots), not H3. -/
theorem numbered_heading_levels_cex :
    (is_heading "1.2 Background" 12 0 12 = (true, some "H1") ∧
      ¬ is_heading "1.2 Background" 12 0 12 = (true, some "H2")) ∧
    (is_heading "1.2.3 Detail" 12 0 12 = (true, some "H2") ∧
      ¬ is_heading "1.2.3 Detail" 12 0 12 = (true, some "H3")) := by
  decide

/-- Claim C1, amended: for any pointSize, styleFlags and meanPointSize,
`classify` maps `"1. Intro"` to H1, `"1.2 Background"` to H1,
`"1.2.3 Detail"` to H2 and `"2.3.4.5 Deep"` to H3: the level is derived
from the number of complete digits-then-dot groups in the captured
numeric group (the final number with no trailing dot is not part of it):
one group → H1, two → H2, three or more → H3. -/
theorem numbered_heading_levels (font_size : ℚ) (font_flags : Nat) (avg : ℚ) :
    is_heading "1. Intro" font_size font_flags avg = (true, some "H1") ∧
    is_heading "1.2 Background" font_size font_flags avg = (true, some "H1") ∧
    is_heading "1.2.3 Detail" font_size font_flags avg = (true, some "H2") ∧
    is_heading "2.3.4.5 Deep" font_size font_flags avg = (true, some "H3") :=
  ⟨rfl, rfl, rfl, rfl⟩

/-- Claim C2, counterexample: the style-fallback law fails as stated —
with meanPointSize 10, the non-bold text `"Methods"` at pointSize 11 is
still classified as a heading (H1), because the title-case structural
pattern `^([A-Z][a-z]+(?:\s+[A-Z][a-z]+)*)$` matches it before any font
metric is consulted. -/
theorem style_fallback_methods_cex :
    is_heading "Methods" 11 0 10 = (true, some "H1") ∧
      ¬ is_heading "Methods" 11 0 10 = (false, (none : Option String)) := by
  decide

/-- Claim C2, amended: with meanPointSize 10, `classify` maps the
non-bold text `"Methods"` at pointSize 16 to H1 and at pointSize 11 also
to H1 — in both cases via the structural title-case pattern, so the
font-style fallback is never reached for this text. -/
theorem style_fallback_methods :
    is_heading "Methods" 16 0 10 = (true, some "H1") ∧
    is_heading "Methods" 11 0 10 = (true, some "H1") :=
  ⟨rfl, rfl⟩

/-- Claim C5: whenever the document provider fails, `extract_outline`
returns the degraded result with title `"Error Processing Document"` and
an empty outline; being a total Lean function, it never propagates a
failure to its caller. -/
theorem provider_failure_degraded (msg : String) :
    extract_outline (Except.error msg) =
      ⟨"Error Processing Document", []⟩ := rfl

/-- Claim C7: for every text whose lower-cased stripped form matches one
of the eight skip patterns, `is_heading` returns `False` as its first
component, for all values of pointSize, styleFlags and meanPointSize. -/
theorem noise_gate (text : String) (font_size : ℚ) (font_flags : Nat)
    (avg : ℚ) (h : matchesSkip (pyLower (pyStrip text.toList)) = true) :
    (is_heading text font_size font_flags avg).1 = false := by
  simp only [is_heading]
  by_cases hlen : (pyStrip text.toList).length < 3 ∨
      200 < (pyStrip text.toList).length
  · rw [if_pos hlen]
  · rw [if_neg hlen, if_pos h]

/-- Witness for C7 at the concrete noise text `"page 3"` with arbitrary
font metrics. -/
theorem noise_gate_witness :
    matchesSkip (pyLower (pyStrip "page 3".toList)) = true ∧
    (is_heading "page 3" 99 16 1).1 = false :=
  ⟨by decide, noise_gate "page 3" 99 16 1 (by decide)⟩

/-- Claim C8: the document-wide baseline equals the arithmetic mean of
the font sizes when the fragment collection is non-empty, and the fixed
default 12 when it is empty; `avg_font_size` is a total function. -/
theorem font_statistics (frags : List Frag) :
    (frags ≠ [] →
      avg_font_size frags =
        (frags.map fun f => f.font_size).sum / frags.length) ∧
    (frags = [] → avg_font_size frags = 12) := by
  constructor
  · intro h
    simp only [avg_font_size]
    rw [if_neg (by simp [h])]
    simp
  · intro h
    subst h
    rfl

/-- Witness for C8: the mean of a one-fragment document and the default
for an empty one. -/
theorem font_statistics_witness :
    avg_font_size [⟨"x", 10, 0, 1⟩] =
      (([⟨"x", 10, 0, 1⟩] : List Frag).map fun f => f.font_size).sum /
        ([⟨"x", 10, 0, 1⟩] : List Frag).length ∧
    avg_font_size ([] : List Frag) = 12 :=
  ⟨(font_statistics _).1 (by simp), (font_statistics _).2 rfl⟩

/-- Claim C10: the second deduplication pass of `extract_outline` never
removes an entry — the assembler equals the variant that returns the
page-then-text sorted list directly, because the first pass already
makes all heading texts pairwise distinct. -/
theorem second_dedup_redundant (frags : List Frag) (avg : ℚ) :
    outlineCore frags avg = outlineNoSecondPass frags avg :=
  outlineCore_no_dedup frags avg

/-- Claim C4: in every assembled outline the pair (level, text) is
unique across entries; every entry is the one produced by the first
fragment in processing order whose text matches and which the classifier
accepts (hence carries that occurrence's page number); and every
accepted fragment text does appear in the outline. -/
theorem dedup_invariant (frags : List Frag) (avg : ℚ) :
    ((outlineCore frags avg).Pairwise fun a b =>
      ¬(a.level = b.level ∧ a.text = b.text)) ∧
    (∀ e ∈ outlineCore frags avg, firstHit frags avg e.text = some e) ∧
    (∀ f ∈ frags,
      (is_heading f.text f.font_size f.font_flags avg).2.isSome = true →
      ∃ e ∈ outlineCore frags avg, e.text = f.text) := by
  have hcore := outlineCore_no_dedup frags avg
  have hperm := sortOutline_perm (buildOutline frags avg [])
  refine ⟨?_, ?_, ?_⟩
  · rw [hcore]
    have hpw := (hperm.pairwise_iff fun {a b} h h' => h h'.symm).mpr
      (buildOutline_pairwise frags avg [])
    exact hpw.imp fun h hc => h hc.2
  · intro e he
    rw [hcore] at he
    exact buildOutline_firstHit frags avg [] e (hperm.mem_iff.mp he)
  · intro f hf hcl
    obtain ⟨e, he, het⟩ := buildOutline_exists frags avg [] f hf hcl (by simp)
    refine ⟨e, ?_, het⟩
    rw [hcore]
    exact hperm.mem_iff.mpr he

/-- Witness for C4: a text qualifying on two pages yields exactly the
first occurrence's entry. -/
theorem dedup_invariant_witness :
    firstHit [⟨"1. One", 12, 0, 1⟩, ⟨"1. One", 12, 0, 2⟩] 12 "1. One" =
      some ⟨"H1", "1. One", 1⟩ ∧
    ∃ e ∈ outlineCore [⟨"1. One", 12, 0, 1⟩, ⟨"1. One", 12, 0, 2⟩] 12,
      e.text = "1. One" := by
  constructor
  · exact
      (dedup_invariant [⟨"1. One", 12, 0, 1⟩, ⟨"1. One", 12, 0, 2⟩] 12).2.1
        ⟨"H1", "1. One", 1⟩ (by decide)
  · exact
      (dedup_invariant [⟨"1. One", 12, 0, 1⟩, ⟨"1. One", 12, 0, 2⟩] 12).2.2
        ⟨"1. One", 12, 0, 1⟩ (by decide) (by decide)

/-- Claim C6: the outline of every result produced by `extract_outline`
is sorted by ascending page number with ascending lexical text order as
the secondary key. -/
theorem outline_ordering (input : Except String PDFDoc) :
    (extract_outline input).outline.Pairwise fun a b =>
      a.page < b.page ∨ (a.page = b.page ∧
        charListLe a.text.toList b.text.toList = true) := by
  cases input with
  | error msg => simp [extract_outline]
  | ok d =>
    show (outlineCore d.frags (avg_font_size d.frags)).Pairwise _
    have hs := sortOutline_sorted
      (buildOutline d.frags (avg_font_size d.frags) [])
    have hsub := dedupLoop_sublist
      (sortOutline (buildOutline d.frags (avg_font_size d.frags) [])) []
    refine List.Pairwise.imp ?_ (List.Pairwise.sublist hsub hs)
    intro a b h
    simpa [entryLe, Bool.or_eq_true, Bool.and_eq_true,
      decide_eq_true_eq] using h

theorem is_heading_eq (text : String) (font_size : ℚ) (font_flags : Nat)
    (avg : ℚ) :
    is_heading text font_size font_flags avg =
      (if (pyStrip text.toList).length < 3 ∨ 200 < (pyStrip text.toList).length
        then (false, none)
       else if matchesSkip (pyLower (pyStrip text.toList)) = true
        then (false, none)
       else ((levelOf (pyStrip text.toList) font_size font_flags avg).isSome,
         levelOf (pyStrip text.toList) font_size font_flags avg)) := rfl

/-- Claim C3: `extract_title` returns the trimmed metadata title when it
is present and non-blank; otherwise the first of the first five
non-empty trimmed first-page lines with length strictly between 10 and
100, not starting with a digit and without the case-insensitive prefix
`"abstract"`; and the sentinel `"Untitled Document"` when no line
qualifies (including zero pages or zero lines). -/
theorem title_resolution (mt : Option String) (pageTexts : List String) :
    extract_title mt pageTexts = titleSpec mt pageTexts := by
  have hloop : ∀ ls : List (List Char),
      titleLoop ls =
        (((ls.find? goodLine).map fun l => (⟨l⟩ : String)).getD
          "Untitled Document") := by
    intro ls
    induction ls with
    | nil => rfl
    | cons l rest ih =>
      by_cases h1 : 10 < l.length ∧ l.length < 100
      · by_cases h2 : l.head?.any isDigitC = false ∧
            "abstract".toList.isPrefixOf (pyLower l) = false
        · have hg : goodLine l = true := by
            unfold goodLine
            rw [h2.1, h2.2]
            simp [h1.1, h1.2]
          rw [titleLoop, if_pos h1, if_pos h2, List.find?_cons_of_pos _ hg]
          rfl
        · have hg : goodLine l = false := by
            unfold goodLine
            rcases Bool.eq_false_or_eq_true (l.head?.any isDigitC) with hd | hd
            · rw [hd]; simp
            · rcases Bool.eq_false_or_eq_true
                  ("abstract".toList.isPrefixOf (pyLower l)) with hp | hp
              · rw [hp]; simp
              · exact absurd ⟨hd, hp⟩ h2
          rw [titleLoop, if_pos h1, if_neg h2,
            List.find?_cons_of_neg _ (by simp [hg]), ih]
      · have hg : goodLine l = false := by
          unfold goodLine
          have : ¬(10 < l.length) ∨ ¬(l.length < 100) := by tauto
          rcases this with h | h <;> simp [h]
        rw [titleLoop, if_neg h1,
          List.find?_cons_of_neg _ (by simp [hg]), ih]
  cases mt with
  | none =>
    cases pageTexts with
    | nil => rfl
    | cons pg rest =>
      simp only [extract_title, titleSpec, titleFromFirstPage]
      exact hloop _
  | some t =>
    by_cases ht : pyStripS t = ""
    · have ht' : ¬(t ≠ "" ∧ pyStripS t ≠ "") := fun h => h.2 ht
      simp only [extract_title, titleSpec, if_neg ht', if_pos ht]
      cases pageTexts with
      | nil => rfl
      | cons pg rest =>
        simp only [titleFromFirstPage]
        exact hloop _
    · have htne : t ≠ "" := fun h => ht (by rw [h]; rfl)
      simp only [extract_title, titleSpec, if_pos (And.intro htne ht),
        if_neg ht]

/-- Claim C9: (1) every stripped text made of upper-case letters and
spaces that passes the length and noise gates is classified H1 through
the structural all-caps pattern, regardless of font metrics; (2) the
residual fallback that assigns H2 to `isupper` texts longer than five
characters (which requires the structural patterns to have found
nothing) can only apply to texts containing a character that is neither
a letter nor a space. -/
theorem uppercase_structural_h1 :
    (∀ (text : String) (font_size : ℚ) (font_flags : Nat) (avg : ℚ),
      (∀ c ∈ pyStrip text.toList, isUpperC c = true ∨ c = ' ') →
      3 ≤ (pyStrip text.toList).length →
      (pyStrip text.toList).length ≤ 200 →
      matchesSkip (pyLower (pyStrip text.toList)) = false →
      is_heading text font_size font_flags avg = (true, some "H1")) ∧
    (∀ text : String,
      structuralLevel (pyStrip text.toList) = none →
      pyIsUpper (pyStrip text.toList) = true →
      5 < (pyStrip text.toList).length →
      ∃ c ∈ pyStrip text.toList, isAlphaC c = false ∧ c ≠ ' ') := by
  constructor
  · intro text font_size font_flags avg hall h3 h200 hskip
    obtain ⟨c, rest, hcons⟩ : ∃ c rest, pyStrip text.toList = c :: rest := by
      cases h : pyStrip text.toList with
      | nil => rw [h] at h3; simp at h3
      | cons c rest => exact ⟨c, rest, rfl⟩
    have hcws : isPyWs c = false := pyStrip_head_not_ws hcons
    have hcup : isUpperC c = true := by
      rcases hall c (by rw [hcons]; exact List.mem_cons_self _ _) with h | rfl
      · exact h
      · exact absurd hcws (by decide)
    have hrest : rest ≠ [] := by
      intro h; rw [hcons, h] at h3; simp at h3
    have hnd : isDigitC c = false := by
      rcases Bool.eq_false_or_eq_true (isDigitC c) with h | h
      · exfalso
        simp only [isDigitC, Bool.and_eq_true, decide_eq_true_eq] at h
        simp only [isUpperC, Bool.and_eq_true, decide_eq_true_eq] at hcup
        omega
      · exact h
    have hdot : ∀ d ∈ pyStrip text.toList, d.toNat ≠ 46 := by
      intro d hd
      rcases hall d hd with h | rfl
      · simp only [isUpperC, Bool.and_eq_true, decide_eq_true_eq] at h
        omega
      · decide
    have hrom' : matchRoman (c :: rest) = false := by
      rw [← hcons]; exact matchRoman_false_of_no_dot hdot
    have hlet' : matchLetter (c :: rest) = false := by
      rw [← hcons]; exact matchLetter_false_of_no_dot hdot
    have hcaps' : matchCaps (c :: rest) = true := by
      refine matchCaps_true hcup hrest ?_
      intro d hd
      refine (hall d (by rw [hcons]; exact List.mem_cons_of_mem _ hd)).imp
        id ?_
      intro h; rw [h]; decide
    have hstruct : structuralLevel (pyStrip text.toList) = some "H1" := by
      rw [hcons]
      simp [structuralLevel, matchNumbered_none_of_head hnd, hrom', hlet',
        hcaps']
    have hgate : ¬((pyStrip text.toList).length < 3 ∨
        200 < (pyStrip text.toList).length) := by
      push_neg
      omega
    have hskip' : ¬ matchesSkip (pyLower (pyStrip text.toList)) = true := by
      rw [hskip]; simp
    rw [is_heading_eq, if_neg hgate, if_neg hskip']
    simp only [levelOf]
    rw [hstruct]
    simp
  · intro text hs hu hlen
    by_contra hcon
    push_neg at hcon
    have hall : ∀ c ∈ pyStrip text.toList, isUpperC c = true ∨ c = ' ' := by
      intro c hc
      cases ha : isAlphaC c with
      | false => exact Or.inr (hcon c hc ha)
      | true =>
        left
        have hnl : isLowerC c = false := by
          have h2 : (pyStrip text.toList).all (fun c => !isLowerC c) = true := by
            have hu' := hu
            simp only [pyIsUpper, Bool.and_eq_true] at hu'
            exact hu'.2
          have := List.all_eq_true.mp h2 c hc
          simpa using this
        simpa [isAlphaC, hnl] using ha
    obtain ⟨c, rest, hcons⟩ : ∃ c rest, pyStrip text.toList = c :: rest := by
      cases h : pyStrip text.toList with
      | nil => rw [h] at hlen; simp at hlen
      | cons c rest => exact ⟨c, rest, rfl⟩
    have hcws : isPyWs c = false := pyStrip_head_not_ws hcons
    have hcup : isUpperC c = true := by
      rcases hall c (by rw [hcons]; exact List.mem_cons_self _ _) with h | rfl
      · exact h
      · exact absurd hcws (by decide)
    have hrest : rest ≠ [] := by
      intro h; rw [hcons, h] at hlen; simp at hlen
    have hcaps : matchCaps (c :: rest) = true := by
      refine matchCaps_true hcup hrest ?_
      intro d hd
      refine (hall d (by rw [hcons]; exact List.mem_cons_of_mem _ hd)).imp
        id ?_
      intro h; rw [h]; decide
    rw [hcons] at hs
    cases hn : matchNumbered (c :: rest) with
    | some k => simp [structuralLevel, hn] at hs
    | none =>
      simp only [structuralLevel, hn] at hs
      by_cases h1 : matchRoman (c :: rest) = true
      · simp [h1] at hs
      · by_cases h2 : matchLetter (c :: rest) = true
        · simp [h1, h2] at hs
        · simp [h1, h2, hcaps] at hs

/-- Witness for C9: the all-caps text `"ABC DEF"` is classified H1 for
arbitrary font metrics, and the text `"ABC 123"` (for which the residual
all-caps fallback fires) contains a character that is neither a letter
nor a space. -/
theorem uppercase_structural_h1_witness :
    is_heading "ABC DEF" 1 2 3 = (true, some "H1") ∧
    ∃ c ∈ pyStrip "ABC 123".toList, isAlphaC c = false ∧ c ≠ ' ' := by
  constructor
  · exact uppercase_structural_h1.1 "ABC DEF" 1 2 3 (by decide) (by decide)
      (by decide) (by decide)
  · exact uppercase_structural_h1.2 "ABC 123" (by decide) (by decide)
      (by decide)
